import Mathlib

/-!
Verification of the s3du bucket sizing engine against its specification.

The definitions below are a shallow embedding of the Rust sources:

* `src/s3/client.rs` — the S3 client: location-constraint translation,
  the custom-region predicate, the head-bucket probe, and the four
  cursor-following sizing loops (`size_object_versions`,
  `size_current_objects`, `size_parts`, `size_multipart_uploads`).
* `src/s3/bucket_sizer.rs` — S3 bucket discovery (`buckets`).
* `src/cloudwatch/client.rs` — the CloudWatch metric listing loop
  (`list_metrics`).
* `src/cloudwatch/bucket_sizer.rs` — the CloudWatch `bucket_size` pass.
* `src/cloudwatch/bucket_metrics.rs` — conversion of a metric catalog to
  per-bucket storage-type collections (`From<Vec<Metric>> for BucketMetrics`).

Remote APIs are modelled by scripting the sequence of responses a call
would receive: a pagination loop takes the list of pages the provider
would serve, one page per request, in order.  Machine integers are
modelled by `Int`/`Nat` with explicit two's-complement wrapping where the
Rust code performs unchecked arithmetic (the release profile of the crate
compiles with wrapping overflow semantics).
-/

/-! ### Object version selection (`src/common/object_versions.rs`) -/

/-- The `ObjectVersions` enum from `src/common/object_versions.rs`:
which objects are summed when operating in S3 mode. -/
inductive ObjectVersions where
  | All
  | Current
  | Multipart
  | NonCurrent
deriving DecidableEq, Repr

/-- One entry of the `versions` list of a `ListObjectVersions` response,
keeping the two fields read by `size_object_versions` in
`src/s3/client.rs`: the `is_latest` flag and the reported size (both are
optional in the AWS SDK model). -/
structure ObjectVersion where
  is_latest : Option Bool
  size : Option Int
deriving DecidableEq, Repr

/-- The per-version contribution computed by the closure inside
`size_object_versions` (`src/s3/client.rs` lines 202–230): versions the
selector is not interested in contribute `0`, missing sizes default to
`0` via `unwrap_or(0)`.  The `Multipart` arm is `unreachable!()` in the
source (`size_objects` never dispatches `Multipart` to this pass); the
model returns `0` there for totality and no theorem evaluates it. -/
def versionContribution (sel : ObjectVersions) (v : ObjectVersion) : Int :=
  match sel with
  | ObjectVersions.All => v.size.getD 0
  | ObjectVersions.Current =>
      if v.is_latest = some true then v.size.getD 0 else 0
  | ObjectVersions.Multipart => 0
  | ObjectVersions.NonCurrent =>
      if v.is_latest = some true then 0 else v.size.getD 0

/-- The exact (un-wrapped) sum of the per-version contributions of one
page of object versions.  This is the mathematical value of the
`version_size` accumulation in `size_object_versions`; the wrapped `i64`
machine value is `i64sum` below. -/
def versionSize (sel : ObjectVersions) (vs : List ObjectVersion) : Int :=
  (vs.map (versionContribution sel)).sum

/-! ### Machine integer arithmetic

The sizing loops in `src/s3/client.rs` sum provider-reported `i64` sizes
with plain `+` (wrapping in the release profile), convert each page sum
to `u64` with the fallible `u64::try_from` (which fails exactly on
negative values, every `i64` fitting in `u64` otherwise), and fold the
page values into a `u64` running total with plain `+=` (again wrapping).
-/

/-- Two's-complement wrap of an integer into the `i64` range
`[-2^63, 2^63)`. -/
def wrap64 (i : Int) : Int := (i + 2 ^ 63) % 2 ^ 64 - 2 ^ 63

/-- The `i64` machine sum of a list of values: every intermediate
addition wraps (Rust release-profile overflow semantics).  Models
`.sum::<i64>()`; the rayon parallel reduction computes the same value
because wrapping addition is associative and commutative. -/
def i64sum (l : List Int) : Int := l.foldl (fun acc x => wrap64 (acc + x)) 0

/-- `u64::try_from` on an `i64` value: fails exactly when the value is
negative (every nonnegative `i64` fits in `u64`). -/
def u64TryFrom (i : Int) : Option Nat := if 0 ≤ i then some i.toNat else none

/-- Wrapping `u64` addition, modelling the unchecked `+=` on the `u64`
running total. -/
def u64add (a b : Nat) : Nat := (a + b) % 2 ^ 64

/-! ### The S3 sizing loops (`src/s3/client.rs`)

Each loop is given the scripted list of pages the provider serves, one
page per request.  An empty script means the loop would issue a request
with no response left, which cannot happen for the well-formed response
sequences the claims quantify over; it is modelled as an error.
-/

/-- One `ListObjectVersions` response page: the fields read by
`size_object_versions`. -/
structure VersionPage where
  versions : List ObjectVersion
  is_truncated : Option Bool
  next_key_marker : Option String
  next_version_id_marker : Option String
deriving DecidableEq, Repr

/-- One `ListObjectsV2` response page: the fields read by
`size_current_objects`.  `contents` holds each object's optional
reported size (`Object::size`). -/
structure ObjectPage where
  contents : List (Option Int)
  is_truncated : Option Bool
  next_continuation_token : Option String
deriving DecidableEq, Repr

/-- One `ListParts` response page: the fields read by `size_parts`.
`parts` holds each part's optional reported size (`Part::size`). -/
structure PartPage where
  parts : List (Option Int)
  is_truncated : Option Bool
  next_part_number_marker : Option String
deriving DecidableEq, Repr

/-- One `ListMultipartUploads` response page: the fields read by
`size_multipart_uploads`.  Each upload is the `(key, upload_id)` pair
the source `expect`s out of the response. -/
structure UploadPage where
  uploads : List (String × String)
  is_truncated : Option Bool
  next_key_marker : Option String
  next_upload_id_marker : Option String
deriving DecidableEq, Repr

/-- The `size_object_versions` loop of `src/s3/client.rs` (lines
182–251): per page, sum the selected version contributions as `i64`,
convert with `u64::try_from` (error `"version size"` on failure), add to
the running total, and continue exactly when `is_truncated` is
`Some(true)`. -/
def size_object_versions (sel : ObjectVersions) :
    List VersionPage → Nat → Except String Nat
  | [], _ => Except.error "no response"
  | page :: rest, size =>
      let version_size := i64sum (page.versions.map (versionContribution sel))
      match u64TryFrom version_size with
      | none => Except.error "version size"
      | some v =>
          let size := u64add size v
          if page.is_truncated = some true then
            size_object_versions sel rest size
          else
            Except.ok size

/-- The `size_current_objects` loop of `src/s3/client.rs` (lines
256–292): per page, sum the present object sizes as `i64`, convert with
`u64::try_from` (error `"object size"` on failure), add to the running
total, and continue exactly when `is_truncated` is `Some(true)`. -/
def size_current_objects : List ObjectPage → Nat → Except String Nat
  | [], _ => Except.error "no response"
  | page :: rest, size =>
      let object_size := i64sum (page.contents.filterMap id)
      match u64TryFrom object_size with
      | none => Except.error "object size"
      | some v =>
          let size := u64add size v
          if page.is_truncated = some true then
            size_current_objects rest size
          else
            Except.ok size

/-- The `size_parts` loop of `src/s3/client.rs` (lines 321–357): per
page, sum the present part sizes as `i64`, convert with `u64::try_from`
(error `"part sizes"` on failure), add to the running total, and
continue exactly when `is_truncated` is `Some(true)`. -/
def size_parts : List PartPage → Nat → Except String Nat
  | [], _ => Except.error "no response"
  | page :: rest, size =>
      let part_sizes := i64sum (page.parts.filterMap id)
      match u64TryFrom part_sizes with
      | none => Except.error "part sizes"
      | some v =>
          let size := u64add size v
          if page.is_truncated = some true then
            size_parts rest size
          else
            Except.ok size

/-- The per-page body of `size_multipart_uploads`: for each upload on
the page, add the result of the `size_parts` sub-pagination (abstracted
by the `partsOf` oracle, keyed by `(key, upload_id)`) to the running
total with the unchecked `+=`; a failing sub-pagination aborts. -/
def sumUploads (partsOf : String → String → Except String Nat) :
    List (String × String) → Nat → Except String Nat
  | [], size => Except.ok size
  | (key, upload_id) :: rest, size =>
      match partsOf key upload_id with
      | Except.error e => Except.error e
      | Except.ok s => sumUploads partsOf rest (u64add size s)

/-- The `size_multipart_uploads` loop of `src/s3/client.rs` (lines
142–176): per page, fold the `size_parts` results of the page's uploads
into the running total, and continue exactly when `is_truncated` is
`Some(true)`. -/
def size_multipart_uploads (partsOf : String → String → Except String Nat) :
    List UploadPage → Nat → Except String Nat
  | [], _ => Except.error "no response"
  | page :: rest, size =>
      match sumUploads partsOf page.uploads size with
      | Except.error e => Except.error e
      | Except.ok size =>
          if page.is_truncated = some true then
            size_multipart_uploads partsOf rest size
          else
            Except.ok size

/-! ### CloudWatch statistics (`src/cloudwatch/bucket_sizer.rs`)

A `Datapoint` in the SDK carries `Option` timestamp and average; the
source unwraps both (`timestamp.unwrap()` while sorting,
`average.expect(..)` when summing), panicking when absent, so the model
takes them present.  The `f64` average is modelled as a natural byte
count; no claim depends on float rounding or on the `as usize` cast.
-/

/-- One CloudWatch datapoint: the two fields `bucket_size` reads. -/
structure Datapoint where
  timestamp : Int
  average : Nat
deriving DecidableEq, Repr

/-- The comparator `bucket_size` sorts datapoints with:
`b.timestamp.cmp(&a.timestamp)` orders larger timestamps first. -/
def timestampDesc (a b : Datapoint) : Prop := b.timestamp ≤ a.timestamp

instance : DecidableRel timestampDesc :=
  fun a b => inferInstanceAs (Decidable (b.timestamp ≤ a.timestamp))

instance : IsTotal Datapoint timestampDesc :=
  ⟨fun a b => (Int.le_total b.timestamp a.timestamp)⟩

instance : IsTrans Datapoint timestampDesc :=
  ⟨fun _ _ _ h1 h2 => le_trans h2 h1⟩

/-- The descending sort `datapoints.sort_by(|a, b| b_timestamp.cmp(&a_timestamp))`
of `src/cloudwatch/bucket_sizer.rs` (lines 72–77).  Rust's stable sort
is modelled by insertion sort; with the distinct timestamps the claims
quantify over, every stable descending sort yields the same list. -/
def sortDatapointsDesc (dps : List Datapoint) : List Datapoint :=
  dps.insertionSort timestampDesc

/-- The datapoint `bucket_size` keeps: index 0 of the descending-sorted
list (`&datapoints[0]`), `none` exactly when the list is empty (the
case the source catches with the `is_empty` check just before). -/
def selectLatestDatapoint (dps : List Datapoint) : Option Datapoint :=
  (sortDatapointsDesc dps).head?

/-- A `GetMetricStatisticsOutput`: the optional datapoint list, as the
`bucket_size` loop of `src/cloudwatch/bucket_sizer.rs` reads it.  One
output per storage class of the bucket (`get_metric_statistics` in
`src/cloudwatch/client.rs` returns one output per class). -/
structure GetMetricStatisticsOutput where
  datapoints : Option (List Datapoint)
deriving DecidableEq, Repr

/-- The class-by-class accumulation of `bucket_size`
(`src/cloudwatch/bucket_sizer.rs` lines 46–97): a missing datapoints
collection skips the class (`continue`); a present but empty collection
aborts the whole bucket with the error below; otherwise the most recent
datapoint's average joins the running total (`size += bytes as usize`,
unchecked). -/
def bucket_size_loop : List GetMetricStatisticsOutput → Nat → Except String Nat
  | [], size => Except.ok size
  | stats :: rest, size =>
      match stats.datapoints with
      | none => bucket_size_loop rest size
      | some dps =>
          match selectLatestDatapoint dps with
          | none => Except.error "Failed to fetch any CloudWatch datapoints!"
          | some datapoint => bucket_size_loop rest (u64add size datapoint.average)

/-- `bucket_size` of the CloudWatch backend: fold the storage-class
statistics outputs into a byte total starting from `0`. -/
def bucket_size (outputs : List GetMetricStatisticsOutput) : Except String Nat :=
  bucket_size_loop outputs 0

/-! ### The metric catalog (`src/cloudwatch/client.rs`,
`src/cloudwatch/bucket_metrics.rs`) -/

/-- A metric dimension: optional name and value, as the SDK models it. -/
structure Dimension where
  name : Option String
  value : Option String
deriving DecidableEq, Repr

/-- A CloudWatch metric, keeping the field the conversion reads:
`metric.dimensions()` (the SDK accessor returns the empty slice when the
field is absent, so the model keeps a plain list). -/
structure Metric where
  dimensions : List Dimension
deriving DecidableEq, Repr

/-- One `ListMetrics` response page: the fields the `list_metrics` loop
of `src/cloudwatch/client.rs` reads. -/
structure MetricsPage where
  metrics : List Metric
  next_token : Option String
deriving DecidableEq, Repr

/-- The `list_metrics` pagination loop (`src/cloudwatch/client.rs` lines
137–184): append each page's metrics to the accumulator, then continue
exactly when the response carries a next token.  `none` models the loop
asking for a page the scripted provider does not have. -/
def list_metrics : List MetricsPage → Option (List Metric)
  | [] => none
  | page :: rest =>
      match page.next_token with
      | some _ => (list_metrics rest).map (fun ms => page.metrics ++ ms)
      | none => some page.metrics

/-- The dimension scan of `From<Vec<Metric>> for BucketMetrics`
(`src/cloudwatch/bucket_metrics.rs` lines 62–81): walk the dimensions
with mutable `name`/`storage_type` strings (initially empty), a
dimension with no name is skipped, a `BucketName`/`StorageType`
dimension overwrites the respective string with its value — which the
source `unwrap`s, panicking when absent, modelled by `none`. -/
def processDimensions : List Dimension → String → String → Option (String × String)
  | [], name, storage_type => some (name, storage_type)
  | d :: rest, name, storage_type =>
      match d.name with
      | none => processDimensions rest name storage_type
      | some "BucketName" =>
          match d.value with
          | some v => processDimensions rest v storage_type
          | none => none
      | some "StorageType" =>
          match d.value with
          | some v => processDimensions rest name v
          | none => none
      | some _ => processDimensions rest name storage_type

/-- `bucket_metrics.entry(name).or_insert_with(StorageTypes::new).push(storage_type)`:
append the storage type to the (unique) entry keyed by `name`, creating
the entry when absent.  The `HashMap` contents are modelled as an
association list in first-insertion order. -/
def insertEntry : List (String × List String) → String → String → List (String × List String)
  | [], name, storage_type => [(name, [storage_type])]
  | e :: rest, name, storage_type =>
      if e.1 = name then (e.1, e.2 ++ [storage_type]) :: rest
      else e :: insertEntry rest name storage_type

/-- The metric fold of `From<Vec<Metric>> for BucketMetrics`
(`src/cloudwatch/bucket_metrics.rs` lines 44–95): metrics with an empty
dimension list are skipped; every other metric's extracted
`(bucket name, storage type)` pair is pushed into the map. -/
def bucketMetricsAux (acc : List (String × List String)) :
    List Metric → Option (List (String × List String))
  | [] => some acc
  | metric :: rest =>
      if metric.dimensions.isEmpty then bucketMetricsAux acc rest
      else
        match processDimensions metric.dimensions "" "" with
        | none => none
        | some (name, storage_type) =>
            bucketMetricsAux (insertEntry acc name storage_type) rest

/-- The `BucketMetrics` built from a metric catalog, as an association
list from bucket name to the storage-type list accumulated for it. -/
def bucket_metrics_from (metrics : List Metric) :
    Option (List (String × List String)) :=
  bucketMetricsAux [] metrics

/-- The `(bucket name, storage type)` pairs the conversion extracts, in
catalog order, skipping metrics with an empty dimension list: the
reference value `bucket_metrics_from` is compared against. -/
def extractedPairs : List Metric → Option (List (String × String))
  | [] => some []
  | metric :: rest =>
      if metric.dimensions.isEmpty then extractedPairs rest
      else
        match processDimensions metric.dimensions "" "" with
        | none => none
        | some p => (extractedPairs rest).map (fun ps => p :: ps)

/-- How many times the storage-type list accumulated for `name` holds
`storage_type`. -/
def countLabel : List (String × List String) → String → String → Nat
  | [], _, _ => 0
  | e :: rest, name, storage_type =>
      (if e.1 = name then e.2.count storage_type else 0)
        + countLabel rest name storage_type

/-! ### S3 region handling and bucket discovery (`src/s3/client.rs`,
`src/s3/bucket_sizer.rs`) -/

/-- The published values of the SDK's `BucketLocationConstraint` enum,
as returned by `BucketLocationConstraint::values()` (external aws-sdk-s3
code): every known location-constraint identifier.  Note `us-east-1`
is historically not among them (it is the null constraint). -/
def bucketLocationConstraintValues : List String :=
  ["EU", "af-south-1", "ap-east-1", "ap-northeast-1", "ap-northeast-2",
   "ap-northeast-3", "ap-south-1", "ap-south-2", "ap-southeast-1",
   "ap-southeast-2", "ap-southeast-3", "ca-central-1", "cn-north-1",
   "cn-northwest-1", "eu-central-1", "eu-north-1", "eu-south-1",
   "eu-south-2", "eu-west-1", "eu-west-2", "eu-west-3", "me-south-1",
   "sa-east-1", "us-east-2", "us-gov-east-1", "us-gov-west-1",
   "us-west-1", "us-west-2"]

/-- `is_custom_client_region` of `src/s3/client.rs` (lines 134–139),
exactly as written: it returns whether the client region's name is
CONTAINED in the published constraint list — there is no negation in the
source, although its comment says any unknown constraint is a custom
region. -/
def is_custom_client_region (region_name : String) : Bool :=
  bucketLocationConstraintValues.contains region_name

/-- The location translation inside `get_bucket_location`
(`src/s3/client.rs` lines 106–110), over the optional
`BucketLocationConstraint` as its string value: the legacy `EU`
constraint becomes `eu-west-1`, an absent constraint becomes
`us-east-1`, every present value other than `EU` — the empty string
included — passes through unchanged. -/
def translate_location_constraint : Option String → String
  | some "EU" => "eu-west-1"
  | some location => location
  | none => "us-east-1"

/-- `head_bucket` of `src/s3/client.rs` (lines 121–132): the probe is
`output.is_ok()` on the request's result, so any error — access denied,
not found, or a transport failure — yields `false`. -/
def head_bucket (response : Except String Unit) : Bool :=
  match response with
  | Except.ok _ => true
  | Except.error _ => false

/-- A discovered `Bucket` (`src/common/bucket.rs`): name, optional
region, optional storage types. -/
structure BucketRec where
  name : String
  region : Option String
  storage_types : Option (List String)
deriving DecidableEq, Repr

/-- The candidate loop of `buckets` in `src/s3/bucket_sizer.rs` (lines
36–59): resolve each candidate's location (a failure aborts discovery),
keep it when its region equals the client region or
`is_custom_client_region` holds for the client region, and inside that
branch silently skip it when the `head_bucket` probe fails. -/
def bucketsLoop (self_region : String)
    (get_bucket_location : String → Except String String)
    (head : String → Bool) : List String → Except String (List BucketRec)
  | [] => Except.ok []
  | b :: rest =>
      match get_bucket_location b with
      | Except.error e => Except.error e
      | Except.ok region =>
          if region = self_region ∨ is_custom_client_region self_region then
            if head b = false then bucketsLoop self_region get_bucket_location head rest
            else
              match bucketsLoop self_region get_bucket_location head rest with
              | Except.error e => Except.error e
              | Except.ok bs =>
                  Except.ok ({ name := b, region := some region,
                               storage_types := none } :: bs)
          else bucketsLoop self_region get_bucket_location head rest

/-- `buckets` of the S3 `BucketSizer` (`src/s3/bucket_sizer.rs` lines
21–64): list the bucket names, retain the CLI-selected name when one is
configured, then run the candidate loop. -/
def buckets (self_region : String) (bucket_name : Option String)
    (names : List String) (get_bucket_location : String → Except String String)
    (head : String → Bool) : Except String (List BucketRec) :=
  let names :=
    match bucket_name with
    | some b => names.filter (fun n => decide (n = b))
    | none => names
  bucketsLoop self_region get_bucket_location head names

/-! ### Concatenated page items

The reference values the pagination claims compare against: the
concatenation of all pages' items.
-/

/-- All object versions of a page sequence, in order. -/
def versionItems (pages : List VersionPage) : List ObjectVersion :=
  (pages.map VersionPage.versions).flatten

/-- All present object sizes of a `ListObjectsV2` page sequence. -/
def objectSizes (pages : List ObjectPage) : List Int :=
  (pages.map ObjectPage.contents).flatten.filterMap id

/-- All present part sizes of a `ListParts` page sequence. -/
def partSizes (pages : List PartPage) : List Int :=
  (pages.map PartPage.parts).flatten.filterMap id

/-- All `(key, upload_id)` pairs of a `ListMultipartUploads` page
sequence. -/
def uploadItems (pages : List UploadPage) : List (String × String) :=
  (pages.map UploadPage.uploads).flatten

/-- A two-page metric listing script whose middle page carries zero
items but a valid cursor. -/
def msPagesW : List MetricsPage := [⟨[⟨[]⟩], some "t1"⟩, ⟨[], some "t2"⟩]

/-- The final metric listing page: no continuation token. -/
def msLastW : MetricsPage := ⟨[⟨[]⟩], none⟩

/-- A truncated first object-version page. -/
def vPagesW : List VersionPage :=
  [⟨[⟨some true, some 5⟩], some true, some "k", some "v"⟩]

/-- The final object-version page. -/
def vLastW : VersionPage := ⟨[⟨some false, some 7⟩], some false, none, none⟩

/-- A truncated first object page (one object of unknown size). -/
def oPagesW : List ObjectPage := [⟨[some 3, none], some true, some "c"⟩]

/-- The final object page. -/
def oLastW : ObjectPage := ⟨[some 4], none, none⟩

/-- A truncated first part page. -/
def pPagesW : List PartPage := [⟨[some 11], some true, some "1"⟩]

/-- The final part page. -/
def pLastW : PartPage := ⟨[some 22], some false, none⟩

/-- A truncated first multipart-upload page. -/
def uPagesW : List UploadPage := [⟨[("k1", "u1")], some true, none, none⟩]

/-- The final multipart-upload page. -/
def uLastW : UploadPage := ⟨[("k2", "u2")], none, none, none⟩

/-- The part-listing totals behind the multipart witness script. -/
def gW (k : String) (_u : String) : Nat := if k = "k1" then 100 else 200

/-- The part-listing oracle behind the multipart witness script. -/
def partsOfW (k : String) (u : String) : Except String Nat := Except.ok (gW k u)

/-! ### Lemmas and claim theorems -/


lemma versionSize_cons (sel : ObjectVersions) (v : ObjectVersion)
    (vs : List ObjectVersion) :
    versionSize sel (v :: vs) = versionContribution sel v + versionSize sel vs := by
  simp [versionSize]

lemma versionSize_current_eq (vs : List ObjectVersion) :
    versionSize ObjectVersions.Current vs
      = ((vs.filter (fun v => decide (v.is_latest = some true))).map
          (fun v => v.size.getD 0)).sum := by
  induction vs with
  | nil => rfl
  | cons v vs ih =>
      by_cases h : v.is_latest = some true <;>
        simp [versionSize_cons, versionSize, versionContribution, h,
          List.filter_cons] at ih ⊢ <;> omega

lemma versionSize_noncurrent_eq (vs : List ObjectVersion) :
    versionSize ObjectVersions.NonCurrent vs
      = ((vs.filter (fun v => decide (¬ v.is_latest = some true))).map
          (fun v => v.size.getD 0)).sum := by
  induction vs with
  | nil => rfl
  | cons v vs ih =>
      by_cases h : v.is_latest = some true <;>
        simp [versionSize_cons, versionSize, versionContribution, h,
          List.filter_cons] at ih ⊢ <;> omega

lemma versionSize_all_eq (vs : List ObjectVersion) :
    versionSize ObjectVersions.All vs = (vs.map (fun v => v.size.getD 0)).sum := rfl

lemma versionSize_partition (vs : List ObjectVersion) :
    versionSize ObjectVersions.Current vs + versionSize ObjectVersions.NonCurrent vs
      = versionSize ObjectVersions.All vs := by
  induction vs with
  | nil => rfl
  | cons v vs ih =>
      by_cases h : v.is_latest = some true <;>
        simp [versionSize_cons, versionContribution, h] <;> omega

/-- C1: for any list of object versions processed by the object-version
sizing pass, the `Current` selector sums exactly the sizes of the
versions flagged latest, the `NonCurrent` selector sums exactly the
sizes of the versions not flagged latest, the `All` selector sums every
version's size, and the `Current` sum plus the `NonCurrent` sum equals
the `All` sum. -/
theorem version_filter_sums (vs : List ObjectVersion) :
    versionSize ObjectVersions.Current vs
        = ((vs.filter (fun v => decide (v.is_latest = some true))).map
            (fun v => v.size.getD 0)).sum
      ∧ versionSize ObjectVersions.NonCurrent vs
        = ((vs.filter (fun v => decide (¬ v.is_latest = some true))).map
            (fun v => v.size.getD 0)).sum
      ∧ versionSize ObjectVersions.All vs = (vs.map (fun v => v.size.getD 0)).sum
      ∧ versionSize ObjectVersions.Current vs + versionSize ObjectVersions.NonCurrent vs
        = versionSize ObjectVersions.All vs :=
  ⟨versionSize_current_eq vs, versionSize_noncurrent_eq vs,
    versionSize_all_eq vs, versionSize_partition vs⟩

lemma wrap64_eq_of_bounds (i : Int) (h1 : -(2 ^ 63) ≤ i) (h2 : i < 2 ^ 63) :
    wrap64 i = i := by
  unfold wrap64
  rw [Int.emod_eq_of_lt (by omega) (by omega)]
  omega

lemma i64sum_foldl_eq (l : List Int) :
    ∀ acc : Int, 0 ≤ acc → (∀ x ∈ l, 0 ≤ x) → acc + l.sum < 2 ^ 63 →
      l.foldl (fun acc x => wrap64 (acc + x)) acc = acc + l.sum := by
  induction l with
  | nil => intro acc _ _ _; simp
  | cons x xs ih =>
      intro acc hacc hmem hbound
      have hx : 0 ≤ x := hmem x (by simp)
      have hxs : ∀ y ∈ xs, 0 ≤ y := fun y hy => hmem y (by simp [hy])
      have hsum : 0 ≤ xs.sum := List.sum_nonneg hxs
      have hb : acc + x + xs.sum < 2 ^ 63 := by
        simp [List.sum_cons] at hbound; omega
      have hwrap : wrap64 (acc + x) = acc + x :=
        wrap64_eq_of_bounds _ (by omega) (by omega)
      simp only [List.foldl_cons, hwrap]
      rw [ih (acc + x) (by omega) hxs hb]
      simp [List.sum_cons]; omega

/-- Under nonnegative sizes with a total below `2^63` the machine sum is
the exact sum. -/
lemma i64sum_eq_sum (l : List Int) (hmem : ∀ x ∈ l, 0 ≤ x)
    (hbound : l.sum < 2 ^ 63) : i64sum l = l.sum := by
  have := i64sum_foldl_eq l 0 le_rfl hmem (by omega)
  simpa [i64sum] using this

lemma versionItems_cons (p : VersionPage) (ps : List VersionPage) :
    versionItems (p :: ps) = p.versions ++ versionItems ps := by
  simp [versionItems]

lemma objectSizes_cons (p : ObjectPage) (ps : List ObjectPage) :
    objectSizes (p :: ps) = p.contents.filterMap id ++ objectSizes ps := by
  simp [objectSizes]

lemma partSizes_cons (p : PartPage) (ps : List PartPage) :
    partSizes (p :: ps) = p.parts.filterMap id ++ partSizes ps := by
  simp [partSizes]

lemma uploadItems_cons (p : UploadPage) (ps : List UploadPage) :
    uploadItems (p :: ps) = p.uploads ++ uploadItems ps := by
  simp [uploadItems]

lemma list_metrics_complete (ps : List MetricsPage) (last : MetricsPage)
    (hps : ∀ p ∈ ps, ∃ t, p.next_token = some t)
    (hlast : last.next_token = none) :
    list_metrics (ps ++ [last])
      = some (((ps ++ [last]).map MetricsPage.metrics).flatten) := by
  induction ps with
  | nil => simp [list_metrics, hlast]
  | cons p ps ih =>
      obtain ⟨t, ht⟩ := hps p (by simp)
      have ih' := ih (fun q hq => hps q (by simp [hq]))
      simp [list_metrics, ht, ih']

lemma size_current_objects_complete :
    ∀ (ps : List ObjectPage) (last : ObjectPage) (acc : Nat),
      (∀ p ∈ ps, p.is_truncated = some true) →
      ¬ last.is_truncated = some true →
      (∀ x ∈ objectSizes (ps ++ [last]), 0 ≤ x) →
      (acc : Int) + (objectSizes (ps ++ [last])).sum < 2 ^ 63 →
      size_current_objects (ps ++ [last]) acc
        = Except.ok ((acc : Int) + (objectSizes (ps ++ [last])).sum).toNat := by
  intro ps
  induction ps with
  | nil =>
      intro last acc hps hlast hnn hbound
      simp only [List.nil_append, objectSizes_cons] at hnn hbound ⊢
      simp only [objectSizes, List.map_nil, List.flatten_nil, List.filterMap_nil,
        List.append_nil] at hnn hbound ⊢
      have hS0 : 0 ≤ (last.contents.filterMap id).sum := List.sum_nonneg hnn
      have hacc : (0 : Int) ≤ (acc : Int) := Int.natCast_nonneg acc
      have hi : i64sum (last.contents.filterMap id) = (last.contents.filterMap id).sum :=
        i64sum_eq_sum _ hnn (by omega)
      simp only [size_current_objects, hi, u64TryFrom, if_pos hS0, u64add,
        if_neg hlast]
      have hmod : acc + (last.contents.filterMap id).sum.toNat < 2 ^ 64 := by omega
      rw [Nat.mod_eq_of_lt hmod]
      congr 1
      omega
  | cons p ps ih =>
      intro last acc hps hlast hnn hbound
      simp only [List.cons_append, objectSizes_cons, List.mem_append,
        List.sum_append] at hnn hbound ⊢
      have hT : ∀ x ∈ p.contents.filterMap id, 0 ≤ x := fun x hx => hnn x (Or.inl hx)
      have hR : ∀ x ∈ objectSizes (ps ++ [last]), 0 ≤ x := fun x hx => hnn x (Or.inr hx)
      have hS0 : 0 ≤ (p.contents.filterMap id).sum := List.sum_nonneg hT
      have hR0 : 0 ≤ (objectSizes (ps ++ [last])).sum := List.sum_nonneg hR
      have hacc : (0 : Int) ≤ (acc : Int) := Int.natCast_nonneg acc
      have hi : i64sum (p.contents.filterMap id) = (p.contents.filterMap id).sum :=
        i64sum_eq_sum _ hT (by omega)
      simp only [size_current_objects, hi, u64TryFrom, if_pos hS0, u64add,
        if_pos (hps p (by simp))]
      have hmod : acc + (p.contents.filterMap id).sum.toNat < 2 ^ 64 := by omega
      rw [Nat.mod_eq_of_lt hmod]
      have ihap := ih last (acc + (p.contents.filterMap id).sum.toNat)
        (fun q hq => hps q (by simp [hq])) hlast hR (by push_cast; omega)
      rw [ihap]
      congr 1
      push_cast
      omega

lemma versionSize_append (sel : ObjectVersions) (a b : List ObjectVersion) :
    versionSize sel (a ++ b) = versionSize sel a + versionSize sel b := by
  simp [versionSize]

lemma versionSize_nonneg (sel : ObjectVersions) (vs : List ObjectVersion)
    (h : ∀ v ∈ vs, 0 ≤ versionContribution sel v) : 0 ≤ versionSize sel vs := by
  have : ∀ x ∈ vs.map (versionContribution sel), 0 ≤ x := by
    intro x hx
    obtain ⟨v, hv, rfl⟩ := List.mem_map.mp hx
    exact h v hv
  exact List.sum_nonneg this

lemma size_object_versions_complete (sel : ObjectVersions) :
    ∀ (ps : List VersionPage) (last : VersionPage) (acc : Nat),
      (∀ p ∈ ps, p.is_truncated = some true) →
      ¬ last.is_truncated = some true →
      (∀ v ∈ versionItems (ps ++ [last]), 0 ≤ versionContribution sel v) →
      (acc : Int) + versionSize sel (versionItems (ps ++ [last])) < 2 ^ 63 →
      size_object_versions sel (ps ++ [last]) acc
        = Except.ok ((acc : Int) + versionSize sel (versionItems (ps ++ [last]))).toNat := by
  intro ps
  induction ps with
  | nil =>
      intro last acc hps hlast hnn hbound
      simp only [List.nil_append, versionItems_cons] at hnn hbound ⊢
      simp only [versionItems, List.map_nil, List.flatten_nil,
        List.append_nil] at hnn hbound ⊢
      have hS0 : 0 ≤ versionSize sel last.versions := versionSize_nonneg sel _ hnn
      have hacc : (0 : Int) ≤ (acc : Int) := Int.natCast_nonneg acc
      have hi : i64sum (last.versions.map (versionContribution sel))
          = versionSize sel last.versions := by
        refine i64sum_eq_sum _ ?_ ?_
        · intro x hx
          obtain ⟨v, hv, rfl⟩ := List.mem_map.mp hx
          exact hnn v hv
        · have : (last.versions.map (versionContribution sel)).sum
              = versionSize sel last.versions := rfl
          omega
      simp only [size_object_versions, hi, u64TryFrom, if_pos hS0, u64add,
        if_neg hlast]
      have hmod : acc + (versionSize sel last.versions).toNat < 2 ^ 64 := by omega
      rw [Nat.mod_eq_of_lt hmod]
      congr 1
      omega
  | cons p ps ih =>
      intro last acc hps hlast hnn hbound
      simp only [List.cons_append, versionItems_cons, List.mem_append,
        versionSize_append] at hnn hbound ⊢
      have hT : ∀ v ∈ p.versions, 0 ≤ versionContribution sel v :=
        fun v hv => hnn v (Or.inl hv)
      have hR : ∀ v ∈ versionItems (ps ++ [last]), 0 ≤ versionContribution sel v :=
        fun v hv => hnn v (Or.inr hv)
      have hS0 : 0 ≤ versionSize sel p.versions := versionSize_nonneg sel _ hT
      have hR0 : 0 ≤ versionSize sel (versionItems (ps ++ [last])) :=
        versionSize_nonneg sel _ hR
      have hacc : (0 : Int) ≤ (acc : Int) := Int.natCast_nonneg acc
      have hi : i64sum (p.versions.map (versionContribution sel))
          = versionSize sel p.versions := by
        refine i64sum_eq_sum _ ?_ ?_
        · intro x hx
          obtain ⟨v, hv, rfl⟩ := List.mem_map.mp hx
          exact hT v hv
        · have : (p.versions.map (versionContribution sel)).sum
              = versionSize sel p.versions := rfl
          omega
      simp only [size_object_versions, hi, u64TryFrom, if_pos hS0, u64add,
        if_pos (hps p (by simp))]
      have hmod : acc + (versionSize sel p.versions).toNat < 2 ^ 64 := by omega
      rw [Nat.mod_eq_of_lt hmod]
      have ihap := ih last (acc + (versionSize sel p.versions).toNat)
        (fun q hq => hps q (by simp [hq])) hlast hR (by push_cast; omega)
      rw [ihap]
      congr 1
      push_cast
      omega

lemma size_parts_complete :
    ∀ (ps : List PartPage) (last : PartPage) (acc : Nat),
      (∀ p ∈ ps, p.is_truncated = some true) →
      ¬ last.is_truncated = some true →
      (∀ x ∈ partSizes (ps ++ [last]), 0 ≤ x) →
      (acc : Int) + (partSizes (ps ++ [last])).sum < 2 ^ 63 →
      size_parts (ps ++ [last]) acc
        = Except.ok ((acc : Int) + (partSizes (ps ++ [last])).sum).toNat := by
  intro ps
  induction ps with
  | nil =>
      intro last acc hps hlast hnn hbound
      simp only [List.nil_append, partSizes_cons] at hnn hbound ⊢
      simp only [partSizes, List.map_nil, List.flatten_nil, List.filterMap_nil,
        List.append_nil] at hnn hbound ⊢
      have hS0 : 0 ≤ (last.parts.filterMap id).sum := List.sum_nonneg hnn
      have hacc : (0 : Int) ≤ (acc : Int) := Int.natCast_nonneg acc
      have hi : i64sum (last.parts.filterMap id) = (last.parts.filterMap id).sum :=
        i64sum_eq_sum _ hnn (by omega)
      simp only [size_parts, hi, u64TryFrom, if_pos hS0, u64add, if_neg hlast]
      have hmod : acc + (last.parts.filterMap id).sum.toNat < 2 ^ 64 := by omega
      rw [Nat.mod_eq_of_lt hmod]
      congr 1
      omega
  | cons p ps ih =>
      intro last acc hps hlast hnn hbound
      simp only [List.cons_append, partSizes_cons, List.mem_append,
        List.sum_append] at hnn hbound ⊢
      have hT : ∀ x ∈ p.parts.filterMap id, 0 ≤ x := fun x hx => hnn x (Or.inl hx)
      have hR : ∀ x ∈ partSizes (ps ++ [last]), 0 ≤ x := fun x hx => hnn x (Or.inr hx)
      have hS0 : 0 ≤ (p.parts.filterMap id).sum := List.sum_nonneg hT
      have hR0 : 0 ≤ (partSizes (ps ++ [last])).sum := List.sum_nonneg hR
      have hacc : (0 : Int) ≤ (acc : Int) := Int.natCast_nonneg acc
      have hi : i64sum (p.parts.filterMap id) = (p.parts.filterMap id).sum :=
        i64sum_eq_sum _ hT (by omega)
      simp only [size_parts, hi, u64TryFrom, if_pos hS0, u64add,
        if_pos (hps p (by simp))]
      have hmod : acc + (p.parts.filterMap id).sum.toNat < 2 ^ 64 := by omega
      rw [Nat.mod_eq_of_lt hmod]
      have ihap := ih last (acc + (p.parts.filterMap id).sum.toNat)
        (fun q hq => hps q (by simp [hq])) hlast hR (by push_cast; omega)
      rw [ihap]
      congr 1
      push_cast
      omega

lemma sumUploads_complete (partsOf : String → String → Except String Nat)
    (g : String → String → Nat) (hg : ∀ k u, partsOf k u = Except.ok (g k u)) :
    ∀ (us : List (String × String)) (acc : Nat),
      acc + (us.map (fun ku => g ku.1 ku.2)).sum < 2 ^ 64 →
      sumUploads partsOf us acc
        = Except.ok (acc + (us.map (fun ku => g ku.1 ku.2)).sum) := by
  intro us
  induction us with
  | nil => intro acc _; simp [sumUploads]
  | cons ku rest ih =>
      intro acc hbound
      obtain ⟨k, u⟩ := ku
      simp only [List.map_cons, List.sum_cons] at hbound ⊢
      have hmod : acc + g k u < 2 ^ 64 := by omega
      simp only [sumUploads, hg k u, u64add, Nat.mod_eq_of_lt hmod]
      rw [ih (acc + g k u) (by omega)]
      congr 1
      omega

lemma size_multipart_uploads_complete (partsOf : String → String → Except String Nat)
    (g : String → String → Nat) (hg : ∀ k u, partsOf k u = Except.ok (g k u)) :
    ∀ (ps : List UploadPage) (last : UploadPage) (acc : Nat),
      (∀ p ∈ ps, p.is_truncated = some true) →
      ¬ last.is_truncated = some true →
      acc + ((uploadItems (ps ++ [last])).map (fun ku => g ku.1 ku.2)).sum < 2 ^ 64 →
      size_multipart_uploads partsOf (ps ++ [last]) acc
        = Except.ok (acc + ((uploadItems (ps ++ [last])).map (fun ku => g ku.1 ku.2)).sum) := by
  intro ps
  induction ps with
  | nil =>
      intro last acc hps hlast hbound
      simp only [List.nil_append, uploadItems_cons] at hbound ⊢
      simp only [uploadItems, List.map_nil, List.flatten_nil,
        List.append_nil] at hbound ⊢
      simp only [size_multipart_uploads,
        sumUploads_complete partsOf g hg last.uploads acc hbound, if_neg hlast]
  | cons p ps ih =>
      intro last acc hps hlast hbound
      simp only [List.cons_append, uploadItems_cons, List.map_append,
        List.sum_append] at hbound ⊢
      have hsub : acc + (p.uploads.map (fun ku => g ku.1 ku.2)).sum < 2 ^ 64 := by
        omega
      simp only [size_multipart_uploads,
        sumUploads_complete partsOf g hg p.uploads acc hsub,
        if_pos (hps p (by simp))]
      rw [ih last (acc + (p.uploads.map (fun ku => g ku.1 ku.2)).sum)
        (fun q hq => hps q (by simp [hq])) hlast (by omega)]
      congr 1
      omega

/-- C3: for every response sequence of N pages (N ≥ 1) whose first N−1
pages carry a continuation cursor / truncated flag and whose page N does
not, each pagination loop — metric listing, object listing,
object-version listing, multipart/part listing — terminates with a
result, and the accumulated result equals its computation over the
concatenation of all N pages' items (the item lists themselves for the
metric listing, the sums of the concatenated sizes for the sizing
loops, within the numeric range the overflow-free sums need); a page
with zero items but a valid cursor does not terminate the loop. -/
theorem pagination_concat
    (msPages : List MetricsPage) (msLast : MetricsPage)
    (sel : ObjectVersions) (vPages : List VersionPage) (vLast : VersionPage)
    (oPages : List ObjectPage) (oLast : ObjectPage)
    (pPages : List PartPage) (pLast : PartPage)
    (partsOf : String → String → Except String Nat) (g : String → String → Nat)
    (uPages : List UploadPage) (uLast : UploadPage)
    (hms : ∀ p ∈ msPages, ∃ t, p.next_token = some t)
    (hmsLast : msLast.next_token = none)
    (hv : ∀ p ∈ vPages, p.is_truncated = some true)
    (hvLast : ¬ vLast.is_truncated = some true)
    (hvnn : ∀ v ∈ versionItems (vPages ++ [vLast]), 0 ≤ versionContribution sel v)
    (hvb : versionSize sel (versionItems (vPages ++ [vLast])) < 2 ^ 63)
    (ho : ∀ p ∈ oPages, p.is_truncated = some true)
    (hoLast : ¬ oLast.is_truncated = some true)
    (honn : ∀ x ∈ objectSizes (oPages ++ [oLast]), 0 ≤ x)
    (hob : (objectSizes (oPages ++ [oLast])).sum < 2 ^ 63)
    (hp : ∀ p ∈ pPages, p.is_truncated = some true)
    (hpLast : ¬ pLast.is_truncated = some true)
    (hpnn : ∀ x ∈ partSizes (pPages ++ [pLast]), 0 ≤ x)
    (hpb : (partSizes (pPages ++ [pLast])).sum < 2 ^ 63)
    (hg : ∀ k u, partsOf k u = Except.ok (g k u))
    (hu : ∀ p ∈ uPages, p.is_truncated = some true)
    (huLast : ¬ uLast.is_truncated = some true)
    (hub : ((uploadItems (uPages ++ [uLast])).map (fun ku => g ku.1 ku.2)).sum < 2 ^ 64) :
    list_metrics (msPages ++ [msLast])
        = some (((msPages ++ [msLast]).map MetricsPage.metrics).flatten)
      ∧ size_object_versions sel (vPages ++ [vLast]) 0
        = Except.ok (versionSize sel (versionItems (vPages ++ [vLast]))).toNat
      ∧ size_current_objects (oPages ++ [oLast]) 0
        = Except.ok (objectSizes (oPages ++ [oLast])).sum.toNat
      ∧ size_parts (pPages ++ [pLast]) 0
        = Except.ok (partSizes (pPages ++ [pLast])).sum.toNat
      ∧ size_multipart_uploads partsOf (uPages ++ [uLast]) 0
        = Except.ok ((uploadItems (uPages ++ [uLast])).map (fun ku => g ku.1 ku.2)).sum := by
  refine ⟨list_metrics_complete msPages msLast hms hmsLast, ?_, ?_, ?_, ?_⟩
  · have h := size_object_versions_complete sel vPages vLast 0 hv hvLast hvnn
      (by push_cast; omega)
    simpa using h
  · have h := size_current_objects_complete oPages oLast 0 ho hoLast honn
      (by push_cast; omega)
    simpa using h
  · have h := size_parts_complete pPages pLast 0 hp hpLast hpnn (by push_cast; omega)
    simpa using h
  · have h := size_multipart_uploads_complete partsOf g hg uPages uLast 0 hu huLast
      (by omega)
    simpa using h

/-- Witness for C3 at a concrete two-page script for each loop,
including a zero-item page with a valid cursor in the metric listing. -/
theorem pagination_concat_witness :
    list_metrics (msPagesW ++ [msLastW])
        = some (((msPagesW ++ [msLastW]).map MetricsPage.metrics).flatten)
      ∧ size_object_versions ObjectVersions.All (vPagesW ++ [vLastW]) 0
        = Except.ok (versionSize ObjectVersions.All
            (versionItems (vPagesW ++ [vLastW]))).toNat
      ∧ size_current_objects (oPagesW ++ [oLastW]) 0
        = Except.ok (objectSizes (oPagesW ++ [oLastW])).sum.toNat
      ∧ size_parts (pPagesW ++ [pLastW]) 0
        = Except.ok (partSizes (pPagesW ++ [pLastW])).sum.toNat
      ∧ size_multipart_uploads partsOfW (uPagesW ++ [uLastW]) 0
        = Except.ok ((uploadItems (uPagesW ++ [uLastW])).map
            (fun ku => gW ku.1 ku.2)).sum :=
  pagination_concat msPagesW msLastW ObjectVersions.All vPagesW vLastW
    oPagesW oLastW pPagesW pLastW partsOfW gW uPagesW uLastW
    (by intro p hp; fin_cases hp <;> exact ⟨_, rfl⟩)
    rfl
    (by decide) (by decide) (by decide) (by decide)
    (by decide) (by decide) (by decide) (by decide)
    (by decide) (by decide) (by decide) (by decide)
    (fun k u => rfl)
    (by decide) (by decide) (by decide)

/-- C8 counterexample: an overflowing accumulation is NOT rejected.
Three pages of `i64::MAX = 2^63 - 1` bytes overflow the `u64` running
total (the true sum is at least `2^64`), yet the loop returns `Ok` with
the wrapped value `2^63 - 3`; and a single page whose `i64` sum is
exactly `2^64` wraps to `0` and is accepted as `Ok 0`. -/
theorem overflow_wraps_silently :
    size_current_objects
        [⟨[some 9223372036854775807], some true, some "t"⟩,
         ⟨[some 9223372036854775807], some true, some "t"⟩,
         ⟨[some 9223372036854775807], none, none⟩] 0
      = Except.ok 9223372036854775805
    ∧ (2 ^ 64 : Int) ≤ 9223372036854775807 + 9223372036854775807 + 9223372036854775807
    ∧ size_current_objects
        [⟨[some 9223372036854775807, some 9223372036854775807, some 2], none, none⟩] 0
      = Except.ok 0 := by
  refine ⟨rfl, by decide, rfl⟩

/-- C8 (amended): a page accumulation whose signed `i64` sum comes out
negative is rejected by the fallible `u64` conversion and surfaced as a
computation error (`"version size"` / `"object size"` / `"part sizes"`),
never folded into the unsigned running total — while an accumulation
that overflows merely wraps (see the counterexample). -/
theorem negative_page_sum_rejected (sel : ObjectVersions)
    (vp : VersionPage) (vrest : List VersionPage) (vacc : Nat)
    (op : ObjectPage) (orest : List ObjectPage) (oacc : Nat)
    (pp : PartPage) (prest : List PartPage) (pacc : Nat)
    (hv : i64sum (vp.versions.map (versionContribution sel)) < 0)
    (ho : i64sum (op.contents.filterMap id) < 0)
    (hp : i64sum (pp.parts.filterMap id) < 0) :
    size_object_versions sel (vp :: vrest) vacc = Except.error "version size"
      ∧ size_current_objects (op :: orest) oacc = Except.error "object size"
      ∧ size_parts (pp :: prest) pacc = Except.error "part sizes" := by
  refine ⟨?_, ?_, ?_⟩
  · simp [size_object_versions, u64TryFrom, not_le.mpr hv]
  · simp [size_current_objects, u64TryFrom, not_le.mpr ho]
  · simp [size_parts, u64TryFrom, not_le.mpr hp]

/-- Witness for the amended C8 at pages holding one negative reported
size each. -/
theorem negative_page_sum_rejected_witness :
    size_object_versions ObjectVersions.All
        [⟨[⟨some true, some (-5)⟩], none, none, none⟩] 0
      = Except.error "version size"
      ∧ size_current_objects [⟨[some (-5)], none, none⟩] 0
        = Except.error "object size"
      ∧ size_parts [⟨[some (-5)], none, none⟩] 0
        = Except.error "part sizes" :=
  negative_page_sum_rejected ObjectVersions.All
    ⟨[⟨some true, some (-5)⟩], none, none, none⟩ [] 0
    ⟨[some (-5)], none, none⟩ [] 0
    ⟨[some (-5)], none, none⟩ [] 0
    (by decide) (by decide) (by decide)

/-- C2 (amended): in the CloudWatch `bucket_size` pass, a class-level
query whose response carries NO datapoints collection contributes zero
and processing continues with the next class; a class-level query that
returns a present-but-EMPTY datapoints collection aborts the whole
bucket immediately with the error `"Failed to fetch any CloudWatch
datapoints!"`, regardless of the remaining classes; and a bucket all of
whose class-level responses carry no datapoints collection is reported
as `Ok 0`, not as an error. -/
theorem cw_datapoints_handling (rest outputs : List GetMetricStatisticsOutput)
    (hall : ∀ o ∈ outputs, o.datapoints = none) :
    bucket_size ({ datapoints := none } :: rest) = bucket_size rest
      ∧ bucket_size ({ datapoints := some [] } :: rest)
        = Except.error "Failed to fetch any CloudWatch datapoints!"
      ∧ bucket_size outputs = Except.ok 0 := by
  refine ⟨rfl, rfl, ?_⟩
  suffices h : ∀ os : List GetMetricStatisticsOutput,
      (∀ o ∈ os, o.datapoints = none) → bucket_size_loop os 0 = Except.ok 0 from
    h outputs hall
  intro os
  induction os with
  | nil => intro _; rfl
  | cons o os ih =>
      intro h
      have ho := h o (by simp)
      simp [bucket_size_loop, ho, ih (fun q hq => h q (by simp [hq]))]

/-- Witness for the amended C2: a skipped class followed by a class with
one datapoint, an aborting empty-collection class, and an all-skipped
bucket. -/
theorem cw_datapoints_handling_witness :
    bucket_size ({ datapoints := none } :: [⟨some [⟨0, 5⟩]⟩])
        = bucket_size [⟨some [⟨0, 5⟩]⟩]
      ∧ bucket_size ({ datapoints := some [] } :: [⟨some [⟨0, 5⟩]⟩])
        = Except.error "Failed to fetch any CloudWatch datapoints!"
      ∧ bucket_size [⟨none⟩] = Except.ok 0 :=
  cw_datapoints_handling [⟨some [⟨0, 5⟩]⟩] [⟨none⟩] (by decide)

/-- C2 counterexample: the claim's error condition does not match the
code.  A bucket whose every class-level query returns zero datapoints is
reported as `Ok 0` (silently zero, no "no usable statistics" error), and
a bucket where only the FIRST class returns an (explicitly empty)
zero-datapoint collection errors even though the second class has a
datapoint. -/
theorem cw_zero_datapoints_eval :
    bucket_size [⟨none⟩, ⟨none⟩] = Except.ok 0
      ∧ bucket_size [⟨some []⟩, ⟨some [⟨0, 100⟩]⟩]
        = Except.error "Failed to fetch any CloudWatch datapoints!" :=
  ⟨rfl, rfl⟩

/-- C7: with datapoints of pairwise-distinct timestamps, the CloudWatch
backend's selection — sorting by timestamp descending and taking index
0 — yields exactly the datapoint with the maximum timestamp, whatever
the input order, and `bucket_size` adds exactly that datapoint's
average for the class. -/
theorem latest_datapoint_selected (dps : List Datapoint)
    (hne : dps ≠ [])
    (hdist : (dps.map Datapoint.timestamp).Nodup) :
    ∃ dp, selectLatestDatapoint dps = some dp
      ∧ dp ∈ dps
      ∧ (∀ d ∈ dps, d ≠ dp → d.timestamp < dp.timestamp)
      ∧ bucket_size [⟨some dps⟩] = Except.ok (u64add 0 dp.average) := by
  have hperm : List.Perm (sortDatapointsDesc dps) dps :=
    List.perm_insertionSort timestampDesc dps
  have hsorted : List.Sorted timestampDesc (sortDatapointsDesc dps) :=
    List.sorted_insertionSort timestampDesc dps
  cases hs : sortDatapointsDesc dps with
  | nil =>
      rw [hs] at hperm
      exact absurd hperm.symm.eq_nil hne
  | cons dp tail =>
      have hmem : dp ∈ dps := hperm.subset (hs ▸ List.mem_cons_self dp tail)
      have hsel : selectLatestDatapoint dps = some dp := by
        simp [selectLatestDatapoint, hs]
      refine ⟨dp, hsel, hmem, ?_, ?_⟩
      · intro d hd hne'
        have hd' : d ∈ sortDatapointsDesc dps := hperm.symm.subset hd
        rw [hs] at hd'
        have hle : d.timestamp ≤ dp.timestamp := by
          rcases List.mem_cons.mp hd' with h | h
          · rw [h]
          · exact List.rel_of_sorted_cons (hs ▸ hsorted) d h
        refine lt_of_le_of_ne hle ?_
        intro heq
        exact hne' (List.inj_on_of_nodup_map hdist hd hmem heq)
      · simp [bucket_size, bucket_size_loop, hsel]

/-- Witness for C7 at three unordered datapoints with distinct
timestamps. -/
theorem latest_datapoint_selected_witness :
    ∃ dp, selectLatestDatapoint [⟨1, 5⟩, ⟨3, 7⟩, ⟨2, 6⟩] = some dp
      ∧ dp ∈ [⟨1, 5⟩, ⟨3, 7⟩, ⟨2, 6⟩]
      ∧ (∀ d ∈ [⟨1, 5⟩, ⟨3, 7⟩, ⟨2, 6⟩], d ≠ dp → d.timestamp < dp.timestamp)
      ∧ bucket_size [⟨some [⟨1, 5⟩, ⟨3, 7⟩, ⟨2, 6⟩]⟩]
        = Except.ok (u64add 0 dp.average) :=
  latest_datapoint_selected [⟨1, 5⟩, ⟨3, 7⟩, ⟨2, 6⟩] (by decide) (by decide)

/-- C4 evaluation: `is_custom_client_region` is inverted relative to the
claim (and to its own source comment).  For the published region
identifier `eu-west-1` — a member of the provider's constraint list —
it returns `true`, and for an identifier matching no published value it
returns `false`; the claim requires exactly the opposite. -/
theorem is_custom_region_inverted :
    is_custom_client_region "eu-west-1" = true
      ∧ bucketLocationConstraintValues.contains "eu-west-1" = true
      ∧ is_custom_client_region "my-custom-endpoint" = false
      ∧ bucketLocationConstraintValues.contains "my-custom-endpoint" = false :=
  ⟨rfl, rfl, by decide, by decide⟩

/-- C5 evaluation: the translation passes the EMPTY string through
unchanged (the repository's own `test_get_bucket_location_ok_null`
fixture pins this), returning `""` rather than `us-east-1`; only the
ABSENT constraint maps to `us-east-1`.  The legacy `EU` alias and the
pass-through of other values behave as claimed, and the translation is
idempotent on its canonical outputs. -/
theorem translate_location_eval :
    translate_location_constraint (some "") = ""
      ∧ ¬ translate_location_constraint (some "") = "us-east-1"
      ∧ translate_location_constraint none = "us-east-1"
      ∧ translate_location_constraint (some "EU") = "eu-west-1"
      ∧ translate_location_constraint (some "ap-south-1") = "ap-south-1"
      ∧ translate_location_constraint
          (some (translate_location_constraint (some "EU")))
        = translate_location_constraint (some "EU")
      ∧ translate_location_constraint
          (some (translate_location_constraint none))
        = translate_location_constraint none :=
  ⟨rfl, by decide, rfl, rfl, rfl, rfl, rfl⟩

/-- C6 evaluation: with the standard client region `eu-west-1`, three
region-matching candidates of which one fails the access probe yield
exactly the other two with no error raised — but a candidate whose home
region is `us-west-2` is ALSO returned, because the inverted
`is_custom_client_region` bypasses the region filter for published
client regions, contradicting the claim that exactly the region-matching
candidates are returned. -/
theorem buckets_probe_eval :
    buckets "eu-west-1" none ["b1", "b2", "b3"]
        (fun _ => Except.ok "eu-west-1") (fun n => !(n == "b2"))
      = Except.ok [⟨"b1", some "eu-west-1", none⟩, ⟨"b3", some "eu-west-1", none⟩]
      ∧ buckets "eu-west-1" none ["bx"]
          (fun _ => Except.ok "us-west-2") (fun _ => true)
        = Except.ok [⟨"bx", some "us-west-2", none⟩]
      ∧ ¬ ("us-west-2" = "eu-west-1") :=
  ⟨rfl, rfl, by decide⟩

lemma countLabel_insertEntry (m : List (String × List String))
    (name st n s : String) :
    countLabel (insertEntry m name st) n s
      = countLabel m n s + (if n = name ∧ s = st then 1 else 0) := by
  induction m with
  | nil =>
      simp only [insertEntry, countLabel, List.count_nil]
      by_cases h1 : name = n
      · subst h1
        simp only [if_pos rfl]
        by_cases h2 : s = st
        · subst h2
          simp [List.count_cons]
        · simp [List.count_cons, List.count_nil, Ne.symm h2, h2]
      · have hns : ¬ (n = name ∧ s = st) := fun hc => h1 hc.1.symm
        simp [h1, hns]
  | cons e rest ih =>
      by_cases h : e.1 = name
      · simp only [insertEntry, if_pos h, countLabel]
        by_cases h2 : e.1 = n
        · simp only [if_pos h2, List.count_append]
          have : ([st].count s) = if n = name ∧ s = st then 1 else 0 := by
            rcases eq_or_ne s st with h3 | h3
            · subst h3
              simp [List.count_cons, h, h2, h.symm.trans h2]
            · simp [List.count_cons, h3, fun hc : n = name ∧ s = st => h3 hc.2]
          omega
        · simp only [if_neg h2]
          have : ¬ (n = name ∧ s = st) := fun hc => h2 (h.trans hc.1.symm)
          simp [this]
      · simp only [insertEntry, if_neg h, countLabel, ih]
        omega

lemma bucketMetricsAux_count (metrics : List Metric) :
    ∀ (acc m : List (String × List String)) (pairs : List (String × String)),
      bucketMetricsAux acc metrics = some m →
      extractedPairs metrics = some pairs →
      ∀ n s, countLabel m n s = countLabel acc n s + pairs.count (n, s) := by
  induction metrics with
  | nil =>
      intro acc m pairs hm hp n s
      simp only [bucketMetricsAux, Option.some.injEq] at hm
      simp only [extractedPairs, Option.some.injEq] at hp
      subst hm; subst hp
      simp
  | cons metric rest ih =>
      intro acc m pairs hm hp n s
      by_cases hd : metric.dimensions.isEmpty
      · simp only [bucketMetricsAux, if_pos hd] at hm
        simp only [extractedPairs, if_pos hd] at hp
        exact ih acc m pairs hm hp n s
      · simp only [bucketMetricsAux, if_neg hd] at hm
        simp only [extractedPairs, if_neg hd] at hp
        cases hpd : processDimensions metric.dimensions "" "" with
        | none => rw [hpd] at hm; exact absurd hm (by simp)
        | some p =>
            rw [hpd] at hm hp
            obtain ⟨name, st⟩ := p
            cases hrest : extractedPairs rest with
            | none => rw [hrest] at hp; exact absurd hp (by simp)
            | some ps =>
                rw [hrest] at hp
                have hp' : (name, st) :: ps = pairs := by simpa using hp
                subst hp'
                have hcount := ih (insertEntry acc name st) m ps hm hrest n s
                rw [hcount, countLabel_insertEntry]
                rcases eq_or_ne (n, s) (name, st) with he | he
                · obtain ⟨h1, h2⟩ := Prod.mk.injEq .. ▸ he
                  simp only [List.count_cons]
                  simp [he, h1, h2]
                  omega
                · have hns2 : ¬ (n = name ∧ s = st) := by
                    intro hc
                    exact he (Prod.ext hc.1 hc.2)
                  simp only [List.count_cons]
                  simp [hns2, he]
                  intro h1 h2
                  exact hns2 ⟨h1.symm, h2.symm⟩

/-- C9 (amended): the conversion of a metric catalog skips metrics whose
dimension list is empty, and accumulates, per extracted bucket name, the
storage-type labels WITH MULTIPLICITY: the list accumulated for a bucket
holds each label exactly as often as the catalog yields the
`(bucket, label)` pair, so a pair seen twice is duplicated, and a metric
with dimensions but no bucket-name dimension accumulates under the empty
bucket name (see the counterexample). -/
theorem bucket_metrics_count (metrics : List Metric)
    (m : List (String × List String)) (pairs : List (String × String))
    (emptyMetric : Metric) (restM : List Metric) (n s : String)
    (hm : bucket_metrics_from metrics = some m)
    (hp : extractedPairs metrics = some pairs)
    (hempty : emptyMetric.dimensions = []) :
    countLabel m n s = pairs.count (n, s)
      ∧ bucket_metrics_from (emptyMetric :: restM) = bucket_metrics_from restM := by
  constructor
  · have h := bucketMetricsAux_count metrics [] m pairs hm hp n s
    simpa [countLabel] using h
  · simp [bucket_metrics_from, bucketMetricsAux, hempty]

/-- Witness for the amended C9 at a one-metric catalog. -/
theorem bucket_metrics_count_witness :
    countLabel [("b", ["X"])] "b" "X"
        = ([("b", "X")] : List (String × String)).count ("b", "X")
      ∧ bucket_metrics_from
          ({ dimensions := [] } :: [⟨[⟨some "BucketName", some "c"⟩]⟩])
        = bucket_metrics_from [⟨[⟨some "BucketName", some "c"⟩]⟩] :=
  bucket_metrics_count
    [⟨[⟨some "BucketName", some "b"⟩, ⟨some "StorageType", some "X"⟩]⟩]
    [("b", ["X"])] [("b", "X")] ⟨[]⟩ [⟨[⟨some "BucketName", some "c"⟩]⟩]
    "b" "X" rfl rfl rfl

/-- C9 counterexample: a metric with dimensions but no bucket-name
dimension creates an entry under the empty bucket name, and a catalog
holding the same metric twice duplicates the storage-type label in the
bucket's list — the accumulated value is not the distinct-label set the
claim describes. -/
theorem bucket_metrics_dup_eval :
    bucket_metrics_from [⟨[⟨some "StorageType", some "X"⟩]⟩]
        = some [("", ["X"])]
      ∧ bucket_metrics_from
          [⟨[⟨some "BucketName", some "b"⟩, ⟨some "StorageType", some "X"⟩]⟩,
           ⟨[⟨some "BucketName", some "b"⟩, ⟨some "StorageType", some "X"⟩]⟩]
        = some [("b", ["X", "X"])] :=
  ⟨rfl, rfl⟩

lemma bucketsLoop_ok_drops (self_region : String) (loc : String → String)
    (head : String → Bool) (b : String) (hb : head b = false) :
    ∀ names : List String,
      ∃ l, bucketsLoop self_region (fun n => Except.ok (loc n)) head names
          = Except.ok l
        ∧ ∀ r ∈ l, r.name ≠ b := by
  intro names
  induction names with
  | nil => exact ⟨[], rfl, by simp⟩
  | cons n rest ih =>
      obtain ⟨l, hl, hnot⟩ := ih
      by_cases hr : loc n = self_region ∨ is_custom_client_region self_region
      · by_cases hh : head n = false
        · exact ⟨l, by simp [bucketsLoop, if_pos hr, hh, hl], hnot⟩
        · refine ⟨{ name := n, region := some (loc n), storage_types := none } :: l,
            by simp [bucketsLoop, if_pos hr, hh, hl], ?_⟩
          intro r hrr
          rcases List.mem_cons.mp hrr with h | h
          · subst h
            intro hEq
            have hEq' : n = b := hEq
            exact hh (hEq' ▸ hb)
          · exact hnot r h
      · exact ⟨l, by simp [bucketsLoop, if_neg hr, hl], hnot⟩

/-- C10: the access probe `head_bucket` is `output.is_ok()` — it returns
`true` exactly on a successful head-bucket response and `false` on every
error response, transport failures included; consequently, whenever the
probe of a bucket fails, discovery still succeeds (no error is
propagated) and the returned set holds no bucket of that name. -/
theorem head_bucket_probe_drop (e : String)
    (resp : String → Except String Unit)
    (self_region : String) (bucket_name : Option String)
    (names : List String) (loc : String → String) (b : String)
    (hb : head_bucket (resp b) = false) :
    head_bucket (Except.error e) = false
      ∧ head_bucket (Except.ok ()) = true
      ∧ ∃ l, buckets self_region bucket_name names (fun n => Except.ok (loc n))
            (fun n => head_bucket (resp n)) = Except.ok l
          ∧ ∀ r ∈ l, r.name ≠ b := by
  refine ⟨rfl, rfl, ?_⟩
  cases bucket_name with
  | none =>
      obtain ⟨l, hl, hnot⟩ :=
        bucketsLoop_ok_drops self_region loc (fun n => head_bucket (resp n)) b hb
          names
      exact ⟨l, hl, hnot⟩
  | some bn =>
      obtain ⟨l, hl, hnot⟩ :=
        bucketsLoop_ok_drops self_region loc (fun n => head_bucket (resp n)) b hb
          (names.filter (fun n => decide (n = bn)))
      exact ⟨l, hl, hnot⟩

/-- Witness for C10: three candidates, the probe of `b2` failing with a
transport-style error, the other two returned. -/
theorem head_bucket_probe_drop_witness :
    head_bucket (Except.error "boom") = false
      ∧ head_bucket (Except.ok ()) = true
      ∧ ∃ l, buckets "eu-west-1" none ["b1", "b2", "b3"]
            (fun n => Except.ok ((fun _ => "eu-west-1") n))
            (fun n => head_bucket
              ((fun m => if m = "b2" then Except.error "denied" else Except.ok ()) n))
          = Except.ok l
          ∧ ∀ r ∈ l, r.name ≠ "b2" :=
  head_bucket_probe_drop "boom"
    (fun m => if m = "b2" then Except.error "denied" else Except.ok ())
    "eu-west-1" none ["b1", "b2", "b3"] (fun _ => "eu-west-1") "b2" (by decide)
